import Mathlib

/-!
# Verification of the dependency-cache-visualizer against its specification

Shallow embedding of the repository's code:

* the presentation-layer helpers of the React frontend
  (`frontend/src/components/DependencyCacheVisualizer.jsx`,
  `TreeView.jsx`, `NodeDetailsPanel.jsx`, `StatsPanel.jsx`,
  `frontend/src/services/api.js`) are translated function by function;
* the cache engine (`DataCache` over `DependencyTree` from
  `dependency_cache_visualizer.core`) is not present in the inspected
  sources (only the frontend that observes it is), so it is modelled from
  the specification, §3–§4.

JavaScript strings are modelled as Lean `String`, JavaScript arrays as
Lean lists, and JavaScript objects (used as string-keyed mappings) as
association lists.
-/

namespace DepCacheViz

/-! ## Frontend path helpers (`DependencyCacheVisualizer.jsx`) -/

/-- Model of JavaScript `str.split('/')`: split the character data at every
occurrence of `'/'`, keeping empty pieces. -/
def jsSplitSlash (s : String) : List String :=
  (s.data.splitOn '/').map String.mk

/-- Model of JavaScript `arr.join('/')` on an array of strings. -/
def jsJoinSlash (l : List String) : String :=
  String.mk (List.intercalate ['/'] (l.map String.data))

/-- Model of JavaScript `str.trim()`: remove whitespace from both ends. -/
def jsTrim (s : String) : String :=
  String.mk (((s.data.dropWhile Char.isWhitespace).reverse.dropWhile
      Char.isWhitespace).reverse)

/-- Function `parsePath` from `DependencyCacheVisualizer.jsx` (lines 14–16):
`pathStr.split('/').filter(p => p && p.trim() !== '')`.  A JavaScript
string is truthy iff it is non-empty. -/
def parsePath (pathStr : String) : List String :=
  (jsSplitSlash pathStr).filter (fun p => p != "" && jsTrim p != "")

/-- Function `formatPath` from `DependencyCacheVisualizer.jsx` (lines 19–22): strip
one leading `"root"` sentinel segment, then join with `'/'`.  (The
`displayPath ? ... : ''` guard only distinguishes `null`/`undefined`
inputs, since an empty array is truthy; the model takes an actual array.
`formatPath` in `NodeDetailsPanel.jsx` is identical except that its
`null` fallback is `'N/A'`.) -/
def formatPath (pathArray : List String) : String :=
  jsJoinSlash (if pathArray.head? = some "root" then pathArray.tail else pathArray)

/-- A piece of a path string is dropped by the spec's description iff it is
empty or consists only of whitespace. -/
def whitespaceOnly (s : String) : Bool :=
  s.data.all Char.isWhitespace

/-- The spec's reading of path-string decoding: the `'/'`-separated pieces
with every empty (or whitespace-only) piece removed. -/
def specSegments (s : String) : List String :=
  (jsSplitSlash s).filter (fun p => !whitespaceOnly p)

/-! ## Tree view child enumeration (`TreeView.jsx`) -/

/-- A node of the tree snapshot as seen by the tree view (the fields the
display and the sort use). -/
structure ViewNode where
  identifier : String
  has_data : Bool
deriving DecidableEq

/-- The order the tree view's comparator
`(a, b) => a.identifier.localeCompare(b.identifier)` sorts by, modelled
as the string order on identifiers. -/
def viewLe (a b : ViewNode) : Prop :=
  a.identifier ≤ b.identifier

instance : DecidableRel viewLe := fun a b =>
  inferInstanceAs (Decidable (a.identifier ≤ b.identifier))

instance : IsTotal ViewNode viewLe :=
  ⟨fun a b => le_total a.identifier b.identifier⟩

instance : IsTrans ViewNode viewLe :=
  ⟨fun _ _ _ h₁ h₂ => le_trans h₁ h₂⟩

/-- Model of `Object.values(node.children).sort((a, b) =>
a.identifier.localeCompare(b.identifier))` from `TreeView.jsx` (lines
77–78 for `TreeNode` children, lines 105–106 for the root children of
`TreeView`): enumerate the values of the children mapping and sort them
by identifier.  The comparison sort is modelled as an insertion sort by
the identifier order. -/
def displayChildren (children : List (String × ViewNode)) : List ViewNode :=
  List.insertionSort viewLe (children.map Prod.snd)

/-! ## API client guards (`services/api.js`) -/

/-- A JavaScript value passed as the `path` argument of an API client
function: either an array (of path segments) or any non-array value. -/
inductive JsValue where
  | array (path : List String)
  | nonArray
deriving DecidableEq

/-- Whether a `JsValue` is an array (JavaScript `Array.isArray`). -/
def JsValue.isArray : JsValue → Bool
  | .array _ => true
  | .nonArray => false

/-- The request a successful API client call hands to `fetchApi`. -/
structure ApiRequest where
  endpoint : String
  path : List String
  data : Option String
deriving DecidableEq

/-- Function `getData` from `api.js` (lines 69–77): throws
`"Path must be an array of strings."` before any fetch when the argument
is not an array; otherwise issues a POST to `/get-data`. -/
def getData : JsValue → Except String ApiRequest
  | .nonArray => .error "Path must be an array of strings."
  | .array p => .ok ⟨"/get-data", p, none⟩

/-- Function `addData` from `api.js` (lines 79–87). -/
def addData : JsValue → String → Except String ApiRequest
  | .nonArray, _ => .error "Path must be an array of strings."
  | .array p, d => .ok ⟨"/add-data", p, some d⟩

/-- Function `invalidatePath` from `api.js` (lines 89–97). -/
def invalidatePath : JsValue → Except String ApiRequest
  | .nonArray => .error "Path must be an array of strings."
  | .array p => .ok ⟨"/invalidate", p, none⟩

/-! ## Detailed path-statistics table (`StatsPanel.jsx`) -/

/-- The keys of a JavaScript object modelled as an association list
(`Object.keys`). -/
def objKeys (m : List (String × Nat)) : List String :=
  m.map Prod.fst

/-- Lookup in a string-keyed JavaScript object: `m[k]`, `undefined` when
absent. -/
def objGet : List (String × Nat) → String → Option Nat
  | [], _ => none
  | (k', v) :: rest, k => if k' = k then some v else objGet rest k

/-- Expression `m[k] || 0` from the row construction in `StatsPanel.jsx`. -/
def objGetOrZero (m : List (String × Nat)) (k : String) : Nat :=
  match objGet m k with
  | some v => v
  | none => 0

/-- Model of `new Set(list)` turned back into a list: deduplicate keeping the
first occurrence of each element, in insertion order. -/
def jsSetDedup (l : List String) : List String :=
  l.foldl (fun acc x => if x ∈ acc then acc else acc ++ [x]) []

/-- A row of the detailed path-statistics table. -/
structure PathRow where
  path : String
  checked : Nat
  hit : Nat
  missed : Nat
  added : Nat
  invalidated : Nat
deriving DecidableEq

/-- Function `pathTableData` from `StatsPanel.jsx` (lines 52–69): one row per path
in the set-union of the key sets of the five per-path mappings, each
count defaulting to `0` when the path is absent from the corresponding
mapping. -/
def pathTableData (pc ph pm pa pi : List (String × Nat)) : List PathRow :=
  let allPaths := jsSetDedup
    (objKeys pc ++ objKeys ph ++ objKeys pm ++ objKeys pa ++ objKeys pi)
  allPaths.map fun k =>
    ⟨k, objGetOrZero pc k, objGetOrZero ph k, objGetOrZero pm k,
      objGetOrZero pa k, objGetOrZero pi k⟩

/-! ## Core cache engine (`DataCache` over `DependencyTree`)

The Python package `dependency_cache_visualizer.core` is not part of the
inspected sources; the definitions in this section are modelled from the
specification (§3 data model, §4 component design).  Stored values are
modelled as natural numbers (the spec treats payloads as opaque), the
write clock as a natural-number logical time, and the per-path counter
mappings as association lists keyed by the `'/'`-joined path string. -/

/-- Modelled from the spec: a `DependencyTree` node (§3) with its
`has_data` flag, stored `value`, `data_hash`, write `timestamp` and
`children` mapping from child identifier to child node.  `value`,
`data_hash` and `timestamp` are meaningful only when `has_data` is
true. -/
inductive Node where
  | mk (has_data : Bool) (value : Nat) (data_hash : Nat) (timestamp : Nat)
      (children : List (String × Node))

def Node.has_data : Node → Bool
  | .mk h _ _ _ _ => h

def Node.value : Node → Nat
  | .mk _ v _ _ _ => v

def Node.data_hash : Node → Nat
  | .mk _ _ dh _ _ => dh

def Node.timestamp : Node → Nat
  | .mk _ _ _ t _ => t

def Node.children : Node → List (String × Node)
  | .mk _ _ _ _ ch => ch

/-- A fresh structural node (`has_data = false`), as created by
`ensure_path` for missing intermediate nodes (§4.1). -/
def Node.blank : Node := .mk false 0 0 0 []

/-- Lookup of a child by identifier in a children mapping. -/
def lookupChild : List (String × Node) → String → Option Node
  | [], _ => none
  | (k, n) :: rest, s => if k = s then some n else lookupChild rest s

/-- Store a child under an identifier: replace the entry when the key is
present, append it otherwise. -/
def setChild : List (String × Node) → String → Node → List (String × Node)
  | [], s, n => [(s, n)]
  | (k, m) :: rest, s, n =>
    if k = s then (s, n) :: rest else (k, m) :: setChild rest s n

/-- Remove the entry of an identifier from a children mapping. -/
def eraseChild : List (String × Node) → String → List (String × Node)
  | [], _ => []
  | (k, n) :: rest, s =>
    if k = s then eraseChild rest s else (k, n) :: eraseChild rest s

/-- Modelled from the spec: `DependencyTree.find` (§4.1) — walk from the
given node following existing children only; `none` when any segment is
missing. -/
def find : Node → List String → Option Node
  | n, [] => some n
  | n, s :: rest =>
    match lookupChild n.children s with
    | none => none
    | some c => find c rest

/-- Modelled from the spec: a deterministic content fingerprint of a
stored value (§3 `data_hash`), recomputed on every write. -/
def hashValue (v : Nat) : Nat :=
  (v * 2654435761 + 97) % 4294967296

/-- Modelled from the spec: `ensure_path` (§4.1) combined with the
terminal store of `add` (§4.2) — walk from the given node creating any
missing intermediate nodes as blank structural nodes, then set
`has_data`, `value`, `data_hash` and `timestamp` at the terminal node,
overwriting any prior value there. -/
def addAt : Node → List String → Nat → Nat → Node
  | .mk _ _ _ _ ch, [], v, t => .mk true v (hashValue v) t ch
  | .mk h vv dh tt ch, s :: rest, v, t =>
    .mk h vv dh tt
      (setChild ch s (addAt ((lookupChild ch s).getD Node.blank) rest v t))

/-- Modelled from the spec: `DependencyTree.collapse` (§4.1) — locate the
node at the path; when absent return `none` (no-op), when present detach
it (and its entire subtree) from its parent and return the updated
tree. -/
def collapse : Node → List String → Option Node
  | _, [] => none
  | .mk h v dh tt ch, [s] =>
    match lookupChild ch s with
    | none => none
    | some _ => some (.mk h v dh tt (eraseChild ch s))
  | .mk h v dh tt ch, s :: rest =>
    match lookupChild ch s with
    | none => none
    | some c =>
      match collapse c rest with
      | none => none
      | some c' => some (.mk h v dh tt (setChild ch s c'))

/-- Modelled from the spec: the statistics ledger (§3) — global counters
plus the five per-path mappings from path string to count. -/
structure Stats where
  gets : Nat
  hits : Nat
  misses : Nat
  adds : Nat
  invalidations : Nat
  paths_checked : List (String × Nat)
  paths_hit : List (String × Nat)
  paths_missed : List (String × Nat)
  paths_added : List (String × Nat)
  paths_invalidated : List (String × Nat)
deriving DecidableEq

/-- Bump a per-path counter: increment the existing entry, or create one
at count 1 the first time the path participates (§3). -/
def incrCount : List (String × Nat) → String → List (String × Nat)
  | [], k => [(k, 1)]
  | (k', v) :: rest, k =>
    if k' = k then (k', v + 1) :: rest else (k', v) :: incrCount rest k

/-- The path-string key of a path (segments joined with `'/'`). -/
def pathKey (p : List String) : String :=
  jsJoinSlash p

/-- The result of `DataCache.get`:
`{exists, value?, hash?, timestamp?}` (§4.2).  The `exists` field is
named `exists_` here. -/
structure GetResult where
  exists_ : Bool
  value : Option Nat
  data_hash : Option Nat
  timestamp : Option Nat
deriving DecidableEq

/-- The error taxonomy of the core (§7): `InvalidPath` for an empty
path, surfaced synchronously; an `Except.error` result carries no new
cache state, so the tree and the statistics are untouched. -/
inductive CacheError where
  | invalidPath
deriving DecidableEq

/-- Modelled from the spec: the cache state — the tree, the statistics
ledger and a logical write clock for timestamps (§2, §3). -/
structure DataCache where
  root : Node
  stats : Stats
  now : Nat

/-- Modelled from the spec: `DataCache.get` (§4.2) — fail with
`InvalidPath` on an empty path; otherwise increment `gets` and
`paths_checked` unconditionally, then on a node that exists and
`has_data` increment `hits`/`paths_hit` and return the stored
value/hash/timestamp, else increment `misses`/`paths_missed` and report
"does not exist". -/
def DataCache.get (c : DataCache) (p : List String) :
    Except CacheError (GetResult × DataCache) :=
  if p = [] then .error .invalidPath else
  let k := pathKey p
  let base := { c.stats with
    gets := c.stats.gets + 1,
    paths_checked := incrCount c.stats.paths_checked k }
  match find c.root p with
  | some n =>
    if n.has_data then
      .ok (⟨true, some n.value, some n.data_hash, some n.timestamp⟩,
        { c with stats := { base with
            hits := base.hits + 1,
            paths_hit := incrCount base.paths_hit k } })
    else
      .ok (⟨false, none, none, none⟩,
        { c with stats := { base with
            misses := base.misses + 1,
            paths_missed := incrCount base.paths_missed k } })
  | none =>
    .ok (⟨false, none, none, none⟩,
      { c with stats := { base with
          misses := base.misses + 1,
          paths_missed := incrCount base.paths_missed k } })

/-- Modelled from the spec: `DataCache.add` (§4.2) — fail with
`InvalidPath` on an empty path; otherwise ensure the path, store the
value with a recomputed hash and the current time at the terminal node
(update semantics), increment `adds` and `paths_added`, and advance the
clock. -/
def DataCache.add (c : DataCache) (p : List String) (v : Nat) :
    Except CacheError DataCache :=
  if p = [] then .error .invalidPath else
  .ok { root := addAt c.root p v c.now,
        stats := { c.stats with
          adds := c.stats.adds + 1,
          paths_added := incrCount c.stats.paths_added (pathKey p) },
        now := c.now + 1 }

/-- Modelled from the spec: `DataCache.invalidate` (§4.2) — fail with
`InvalidPath` on an empty path; otherwise delegate to `collapse`: when
the node existed, increment `invalidations` and `paths_invalidated` (for
that path only) and return `true`; when nothing existed, return `false`
with the statistics left unchanged. -/
def DataCache.invalidate (c : DataCache) (p : List String) :
    Except CacheError (Bool × DataCache) :=
  if p = [] then .error .invalidPath else
  match collapse c.root p with
  | none => .ok (false, c)
  | some r =>
    .ok (true, { c with
      root := r,
      stats := { c.stats with
        invalidations := c.stats.invalidations + 1,
        paths_invalidated :=
          incrCount c.stats.paths_invalidated (pathKey p) } })

/-- The data-bearing fields of an optional node (what `get` can observe
at a path, ignoring tree structure below it). -/
def dataView : Option Node → Option (Bool × Nat × Nat × Nat)
  | none => none
  | some n => some (n.has_data, n.value, n.data_hash, n.timestamp)

/-- The stored value (with hash and timestamp) that `get` would report
at a path: `none` when the node is missing or is a structural node
without data. -/
def stored (c : DataCache) (q : List String) : Option (Nat × Nat × Nat) :=
  match dataView (find c.root q) with
  | some (true, v, dh, t) => some (v, dh, t)
  | _ => none

/-- A cache as constructed at process start (§3 lifecycle): a bare root,
zeroed ledger, clock at 0. -/
def emptyCache : DataCache :=
  ⟨Node.blank, ⟨0, 0, 0, 0, 0, [], [], [], [], []⟩, 0⟩

/-- Operation `add` as a total function on states, for building concrete example
caches (the error branch cannot occur for the non-empty paths used). -/
def addU (c : DataCache) (p : List String) (v : Nat) : DataCache :=
  match c.add p v with
  | .ok c' => c'
  | .error _ => c

/-- The cascade scenario of §8: `add(["a","b"], 1)`,
`add(["a","b","c"], 2)`, `add(["a","d"], 3)`. -/
def exampleCache : DataCache :=
  addU (addU (addU emptyCache ["a", "b"] 1) ["a", "b", "c"] 2) ["a", "d"] 3

/-- The state after `invalidate(["a","b"])` on `exampleCache`. -/
def exampleInvalidated : DataCache :=
  match exampleCache.invalidate ["a", "b"] with
  | .ok (_, c') => c'
  | .error _ => exampleCache

/-- The path guard at the top of `executeOperation`
(`DependencyCacheVisualizer.jsx` lines 105–111) as it applies to the
path-requiring operation handlers (get / add / invalidate): parse the
path input and raise `"Path cannot be empty for this operation."` when
the parsed path is empty, before any API function is called. -/
def executeOperationPathGuard (opPathInput : String) : Option String :=
  if (parsePath opPathInput).length = 0 then
    some "Path cannot be empty for this operation."
  else none

/-! ### Lemmas about the path helpers -/

theorem dropWhile_forall_iff (p : Char → Bool) (l : List Char) :
    (∀ x ∈ l.dropWhile p, p x) ↔ (∀ x ∈ l, p x) := by
  constructor
  · intro h x hx
    have : x ∈ l.takeWhile p ++ l.dropWhile p := by
      rw [List.takeWhile_append_dropWhile]; exact hx
    rcases List.mem_append.mp this with h' | h'
    · exact List.mem_takeWhile_imp h'
    · exact h x h'
  · intro h x hx
    exact h x (List.dropWhile_sublist p |>.mem hx)

theorem jsTrim_eq_empty_iff (s : String) :
    jsTrim s = "" ↔ s.data.all Char.isWhitespace = true := by
  have hmk : ∀ l : List Char, String.mk l = "" ↔ l = [] := by
    intro l
    constructor
    · intro h; exact congrArg String.data h
    · intro h; rw [h]
  rw [jsTrim, hmk, List.reverse_eq_nil_iff, List.dropWhile_eq_nil_iff,
    List.all_eq_true]
  constructor
  · intro h x hx
    have := (dropWhile_forall_iff Char.isWhitespace s.data).mp
      (fun y hy => h y (List.mem_reverse.mpr hy))
    exact this x hx
  · intro h x hx
    exact h x (List.dropWhile_sublist Char.isWhitespace |>.mem
      (List.mem_reverse.mp hx))

theorem parsePath_eq_specSegments (s : String) :
    parsePath s = specSegments s := by
  rw [parsePath, specSegments]
  apply List.filter_congr
  intro p _
  by_cases hws : whitespaceOnly p = true
  · have htrim : jsTrim p = "" := (jsTrim_eq_empty_iff p).mpr hws
    simp [htrim, hws]
  · have hne : p ≠ "" := by
      intro h
      apply hws
      rw [h]
      rfl
    have htrim : jsTrim p ≠ "" := by
      intro h
      exact hws ((jsTrim_eq_empty_iff p).mp h)
    simp [hne, htrim, hws]

theorem jsSplitSlash_jsJoinSlash (p : List String) (hne : p ≠ [])
    (hsl : ∀ s ∈ p, '/' ∉ s.data) :
    jsSplitSlash (jsJoinSlash p) = p := by
  rw [jsSplitSlash, jsJoinSlash]
  have hd : (String.mk (List.intercalate ['/'] (p.map String.data))).data
      = List.intercalate ['/'] (p.map String.data) := rfl
  rw [hd]
  rw [List.splitOn_intercalate (p.map String.data) '/' (by
    intro l hl
    rcases List.mem_map.mp hl with ⟨s, hs, rfl⟩
    exact hsl s hs) (by simpa using hne)]
  rw [List.map_map]
  exact List.map_id'' (fun x => by cases x; rfl) p

theorem not_whitespaceOnly_ne_empty {s : String} (h : whitespaceOnly s = false) :
    s ≠ "" := by
  intro he
  rw [he] at h
  exact absurd h (by decide)

theorem not_whitespaceOnly_jsTrim_ne_empty {s : String}
    (h : whitespaceOnly s = false) : jsTrim s ≠ "" := by
  intro he
  have := (jsTrim_eq_empty_iff s).mp he
  rw [whitespaceOnly] at h
  rw [this] at h
  exact absurd h (by decide)

/-! ### Claims about the path helpers -/

/-- C5: for every path string `s`, `parsePath s` equals the list of
`'/'`-separated pieces of `s` with every empty (or whitespace-only) piece
removed; in particular `'a//b'` and `'a/b'` yield the same segments. -/
theorem parsePath_drops_empty_segments :
    (∀ s : String, parsePath s = specSegments s) ∧
      parsePath "a//b" = parsePath "a/b" := by
  refine ⟨parsePath_eq_specSegments, ?_⟩
  decide

/-- C7 counterexample: `formatPath` strips only one leading `"root"`
segment, so for `p = ["root", "root", "a"]` the claimed equation
`formatPath p = formatPath p.tail` fails: the left side is `"root/a"`
while the right side is `"a"`. -/
theorem formatPath_double_root_counterexample :
    formatPath ["root", "root", "a"]
      ≠ formatPath (["root", "root", "a"].tail) := by
  decide

/-- C7 (amended): for every path array `p` whose first element is
`"root"`, `formatPath p` equals the segments of `p` after that first
element joined with `'/'` (note: not `formatPath` of the tail, which
would strip a second `"root"`); for every `p` not starting with
`"root"`, `formatPath p` joins all segments of `p` with `'/'`. -/
theorem formatPath_strips_one_root (p : List String) :
    (p.head? = some "root" → formatPath p = jsJoinSlash p.tail) ∧
      (p.head? ≠ some "root" → formatPath p = jsJoinSlash p) := by
  constructor
  · intro h
    rw [formatPath, if_pos h]
  · intro h
    rw [formatPath, if_neg h]

/-- Witness for C7: the amended claim evaluated at `["root", "a"]`. -/
theorem formatPath_strips_one_root_witness :
    formatPath ["root", "a"] = jsJoinSlash ["a"] :=
  (formatPath_strips_one_root ["root", "a"]).1 rfl

/-- C8: round-trip of the presentation-layer path helpers: for every
non-empty array `p` of strings in which each element contains no `'/'`
and is not empty or whitespace-only, and whose first element is not
`"root"`, `parsePath (formatPath p) = p`. -/
theorem parsePath_formatPath_roundtrip (p : List String) (hne : p ≠ [])
    (hseg : ∀ s ∈ p, '/' ∉ s.data ∧ whitespaceOnly s = false)
    (hroot : p.head? ≠ some "root") :
    parsePath (formatPath p) = p := by
  rw [formatPath, if_neg hroot, parsePath,
    jsSplitSlash_jsJoinSlash p hne (fun s hs => (hseg s hs).1)]
  rw [List.filter_eq_self]
  intro s hs
  have hws := (hseg s hs).2
  have h1 : s ≠ "" := not_whitespaceOnly_ne_empty hws
  have h2 : jsTrim s ≠ "" := not_whitespaceOnly_jsTrim_ne_empty hws
  simp [h1, h2]

/-- Witness for C8: the round-trip evaluated at `["a", "b"]`. -/
theorem parsePath_formatPath_roundtrip_witness :
    parsePath (formatPath ["a", "b"]) = ["a", "b"] :=
  parsePath_formatPath_roundtrip ["a", "b"] (by decide)
    (by decide) (by decide)

theorem eq_of_sorted_of_perm_of_nodup_ids :
    ∀ l₁ l₂ : List ViewNode, l₁.Perm l₂ →
      List.Sorted viewLe l₁ → List.Sorted viewLe l₂ →
      (l₁.map ViewNode.identifier).Nodup → l₁ = l₂ := by
  intro l₁
  induction l₁ with
  | nil =>
    intro l₂ hp _ _ _
    exact hp.nil_eq
  | cons a t ih =>
    intro l₂ hp hs₁ hs₂ hnd
    cases l₂ with
    | nil => exact absurd hp.symm.nil_eq (by simp)
    | cons b t₂ =>
      have hab : a = b := by
        by_contra hne
        have hbmem : b ∈ a :: t := hp.mem_iff.mpr (List.mem_cons_self b t₂)
        have hamem : a ∈ b :: t₂ := hp.mem_iff.mp (List.mem_cons_self a t)
        have hbt : b ∈ t := by
          rcases List.mem_cons.mp hbmem with h | h
          · exact absurd h.symm hne
          · exact h
        have h₁ : viewLe a b := List.rel_of_sorted_cons hs₁ b hbt
        have h₂ : viewLe b a := by
          rcases List.mem_cons.mp hamem with h | h
          · exact absurd h hne
          · exact List.rel_of_sorted_cons hs₂ a h
        have hid : a.identifier = b.identifier := le_antisymm h₁ h₂
        rw [List.map_cons, List.nodup_cons] at hnd
        exact hnd.1 (hid ▸ List.mem_map_of_mem ViewNode.identifier hbt)
      subst hab
      have ht := ih t₂ hp.cons_inv hs₁.of_cons hs₂.of_cons
        (by rw [List.map_cons, List.nodup_cons] at hnd; exact hnd.2)
      rw [ht]

/-- C6: the displayed children of a node are the values of its children
mapping sorted ascending by identifier, and (given the mapping's
identifiers are unique) the result does not depend on the order in which
the children appear in the mapping. -/
theorem displayChildren_sorted_by_identifier
    (ch : List (String × ViewNode)) :
    List.Sorted viewLe (displayChildren ch) ∧
      (displayChildren ch).Perm (ch.map Prod.snd) ∧
      ∀ ch₂ : List (String × ViewNode),
        (ch.map Prod.snd).Perm (ch₂.map Prod.snd) →
        ((ch.map Prod.snd).map ViewNode.identifier).Nodup →
        displayChildren ch = displayChildren ch₂ := by
  refine ⟨List.sorted_insertionSort viewLe _,
    List.perm_insertionSort viewLe _, ?_⟩
  intro ch₂ hperm hnd
  apply eq_of_sorted_of_perm_of_nodup_ids
  · exact (List.perm_insertionSort viewLe _).trans
      (hperm.trans (List.perm_insertionSort viewLe _).symm)
  · exact List.sorted_insertionSort viewLe _
  · exact List.sorted_insertionSort viewLe _
  · exact (((List.perm_insertionSort viewLe _).map
      ViewNode.identifier).nodup_iff).mpr hnd

/-- Witness for C6: two orderings of the same children mapping display
identically, sorted by identifier. -/
theorem displayChildren_sorted_witness :
    displayChildren [("b", ⟨"b", true⟩), ("a", ⟨"a", false⟩)]
      = displayChildren [("a", ⟨"a", false⟩), ("b", ⟨"b", true⟩)] :=
  (displayChildren_sorted_by_identifier
    [("b", ⟨"b", true⟩), ("a", ⟨"a", false⟩)]).2.2
    [("a", ⟨"a", false⟩), ("b", ⟨"b", true⟩)] (by decide) (by decide)

/-- C9: for every non-array argument, each of `getData`, `addData` and
`invalidatePath` throws synchronously with the message
`"Path must be an array of strings."` and issues no request (the error
is raised before `fetchApi` is reached). -/
theorem api_nonArray_path_throws (v : JsValue) (h : v.isArray = false) :
    getData v = .error "Path must be an array of strings." ∧
      (∀ d, addData v d = .error "Path must be an array of strings.") ∧
      invalidatePath v = .error "Path must be an array of strings." := by
  cases v with
  | array p => exact absurd h (by simp [JsValue.isArray])
  | nonArray => exact ⟨rfl, fun _ => rfl, rfl⟩

/-- Witness for C9: the guard evaluated at a non-array value. -/
theorem api_nonArray_path_throws_witness :
    getData JsValue.nonArray = .error "Path must be an array of strings." :=
  (api_nonArray_path_throws JsValue.nonArray rfl).1

theorem jsSetDedup_foldl_nodup :
    ∀ (l acc : List String), acc.Nodup →
      (l.foldl (fun a x => if x ∈ a then a else a ++ [x]) acc).Nodup := by
  intro l
  induction l with
  | nil => intro acc h; exact h
  | cons y ys ih =>
    intro acc h
    rw [List.foldl_cons]
    by_cases hy : y ∈ acc
    · rw [if_pos hy]
      exact ih acc h
    · rw [if_neg hy]
      apply ih
      rw [List.nodup_append]
      refine ⟨h, List.nodup_singleton y, ?_⟩
      intro z hz hz'
      rw [List.mem_singleton] at hz'
      subst hz'
      exact hy hz

theorem jsSetDedup_foldl_mem :
    ∀ (l acc : List String) (x : String),
      x ∈ l.foldl (fun a y => if y ∈ a then a else a ++ [y]) acc ↔
        x ∈ acc ∨ x ∈ l := by
  intro l
  induction l with
  | nil => intro acc x; simp
  | cons y ys ih =>
    intro acc x
    rw [List.foldl_cons]
    by_cases hy : y ∈ acc
    · rw [if_pos hy, ih]
      constructor
      · rintro (h | h)
        · exact Or.inl h
        · exact Or.inr (List.mem_cons_of_mem y h)
      · rintro (h | h)
        · exact Or.inl h
        · rcases List.mem_cons.mp h with rfl | h
          · exact Or.inl hy
          · exact Or.inr h
    · rw [if_neg hy, ih]
      constructor
      · rintro (h | h)
        · rcases List.mem_append.mp h with h | h
          · exact Or.inl h
          · rw [List.mem_singleton] at h
            exact Or.inr (h ▸ List.mem_cons_self y ys)
        · exact Or.inr (List.mem_cons_of_mem y h)
      · rintro (h | h)
        · exact Or.inl (List.mem_append_left _ h)
        · rcases List.mem_cons.mp h with rfl | h
          · exact Or.inl (List.mem_append_right _ (List.mem_singleton_self x))
          · exact Or.inr h

theorem jsSetDedup_spec (l : List String) :
    (jsSetDedup l).Nodup ∧ ∀ x, x ∈ jsSetDedup l ↔ x ∈ l := by
  constructor
  · exact jsSetDedup_foldl_nodup l [] List.nodup_nil
  · intro x
    rw [jsSetDedup, jsSetDedup_foldl_mem]
    simp

/-- C10: the detailed path-statistics table has exactly one row per path
in the union of the key sets of the five per-path mappings, and in each
row a count whose path is absent from the corresponding mapping is `0`. -/
theorem pathTableData_rows (pc ph pm pa pi : List (String × Nat)) :
    ((pathTableData pc ph pm pa pi).map PathRow.path).Nodup ∧
      (∀ k, (∃ r ∈ pathTableData pc ph pm pa pi, r.path = k) ↔
        k ∈ objKeys pc ++ objKeys ph ++ objKeys pm
          ++ objKeys pa ++ objKeys pi) ∧
      ∀ r ∈ pathTableData pc ph pm pa pi,
        r.checked = objGetOrZero pc r.path ∧
        r.hit = objGetOrZero ph r.path ∧
        r.missed = objGetOrZero pm r.path ∧
        r.added = objGetOrZero pa r.path ∧
        r.invalidated = objGetOrZero pi r.path := by
  obtain ⟨hnd, hmem⟩ := jsSetDedup_spec
    (objKeys pc ++ objKeys ph ++ objKeys pm ++ objKeys pa ++ objKeys pi)
  refine ⟨?_, ?_, ?_⟩
  · rw [pathTableData, List.map_map]
    have : (PathRow.path ∘ fun k =>
        (⟨k, objGetOrZero pc k, objGetOrZero ph k, objGetOrZero pm k,
          objGetOrZero pa k, objGetOrZero pi k⟩ : PathRow)) = id := rfl
    rw [this, List.map_id]
    exact hnd
  · intro k
    constructor
    · rintro ⟨r, hr, rfl⟩
      rw [pathTableData, List.mem_map] at hr
      rcases hr with ⟨k', hk', rfl⟩
      exact (hmem k').mp hk'
    · intro hk
      exact ⟨_, List.mem_map_of_mem _ ((hmem k).mpr hk), rfl⟩
  · intro r hr
    rw [pathTableData, List.mem_map] at hr
    rcases hr with ⟨k, _, rfl⟩
    exact ⟨rfl, rfl, rfl, rfl, rfl⟩

/-- Witness for C10: a concrete stats object with one path present only
in `paths_checked`; its row reports the other four counts as `0`. -/
theorem pathTableData_rows_witness :
    (⟨"a", 2, 0, 0, 0, 0⟩ : PathRow).hit
      = objGetOrZero [] (⟨"a", 2, 0, 0, 0, 0⟩ : PathRow).path :=
  ((pathTableData_rows [("a", 2)] [] [] [] []).2.2
    ⟨"a", 2, 0, 0, 0, 0⟩ (by decide)).2.1

/-! ### Lemmas about the tree operations -/

theorem lookup_setChild_self :
    ∀ (m : List (String × Node)) (s : String) (x : Node),
      lookupChild (setChild m s x) s = some x := by
  intro m s x
  induction m with
  | nil => simp [setChild, lookupChild]
  | cons e rest ih =>
    obtain ⟨k, n⟩ := e
    by_cases hk : k = s
    · simp [setChild, hk, lookupChild]
    · simp [setChild, hk, lookupChild, ih]

theorem lookup_setChild_ne :
    ∀ (m : List (String × Node)) (s t : String) (x : Node), t ≠ s →
      lookupChild (setChild m s x) t = lookupChild m t := by
  intro m s t x hts
  have hst : s ≠ t := Ne.symm hts
  induction m with
  | nil => simp [setChild, lookupChild, hst]
  | cons e rest ih =>
    obtain ⟨k, n⟩ := e
    by_cases hk : k = s
    · subst hk
      simp [setChild, lookupChild, hst]
    · by_cases hkt : k = t
      · simp [setChild, hk, lookupChild, hkt, hst, hts]
      · simp [setChild, hk, lookupChild, hkt, ih]

theorem lookup_eraseChild_self :
    ∀ (m : List (String × Node)) (s : String),
      lookupChild (eraseChild m s) s = none := by
  intro m s
  induction m with
  | nil => rfl
  | cons e rest ih =>
    obtain ⟨k, n⟩ := e
    by_cases hk : k = s
    · simpa [eraseChild, hk] using ih
    · simpa [eraseChild, hk, lookupChild] using ih

theorem lookup_eraseChild_ne :
    ∀ (m : List (String × Node)) (s t : String), t ≠ s →
      lookupChild (eraseChild m s) t = lookupChild m t := by
  intro m s t hts
  have hst : s ≠ t := Ne.symm hts
  induction m with
  | nil => rfl
  | cons e rest ih =>
    obtain ⟨k, n⟩ := e
    by_cases hk : k = s
    · subst hk
      simpa [eraseChild, lookupChild, hst] using ih
    · by_cases hkt : k = t
      · simp [eraseChild, hk, lookupChild, hkt, hst, hts]
      · simpa [eraseChild, hk, lookupChild, hkt] using ih

theorem find_append (p q : List String) :
    ∀ n : Node, find n (p ++ q) = (find n p).bind (fun m => find m q) := by
  induction p with
  | nil => intro n; simp [find]
  | cons s rest ih =>
    intro n
    rw [List.cons_append]
    show (match lookupChild n.children s with
      | none => none
      | some c => find c (rest ++ q)) = _
    cases hl : lookupChild n.children s with
    | none => simp [find, hl]
    | some c => simp [find, hl, ih c]

theorem find_addAt :
    ∀ (p : List String) (n : Node) (v t : Nat),
      ∃ ch, find (addAt n p v t) p
        = some (.mk true v (hashValue v) t ch)
  | [], .mk _ _ _ _ ch, v, t => ⟨ch, rfl⟩
  | s :: rest, .mk h vv dh tt ch, v, t => by
    obtain ⟨ch', hch⟩ :=
      find_addAt rest ((lookupChild ch s).getD Node.blank) v t
    exact ⟨ch', by simp [addAt, find, Node.children,
      lookup_setChild_self, hch]⟩

theorem collapse_none_of_find_none :
    ∀ (p : List String) (n : Node), p ≠ [] → find n p = none →
      collapse n p = none
  | [], _, hp, _ => absurd rfl hp
  | [s], .mk h v dh tt ch, _, hf => by
    cases hl : lookupChild ch s with
    | none => simp [collapse, hl]
    | some c => simp [find, Node.children, hl] at hf
  | s :: s' :: rest, .mk h v dh tt ch, _, hf => by
    cases hl : lookupChild ch s with
    | none => simp [collapse, hl]
    | some c =>
      have hf' : find c (s' :: rest) = none := by
        simpa [find, Node.children, hl] using hf
      simp [collapse, hl,
        collapse_none_of_find_none (s' :: rest) c (by simp) hf']

theorem find_collapse_none :
    ∀ (p : List String) (n n' : Node), collapse n p = some n' →
      find n' p = none
  | [], _, _, hcol => by simp [collapse] at hcol
  | [s], .mk h v dh tt ch, n', hcol => by
    cases hl : lookupChild ch s with
    | none => simp [collapse, hl] at hcol
    | some c =>
      simp only [collapse, hl, Option.some.injEq] at hcol
      subst hcol
      simp [find, Node.children, lookup_eraseChild_self]
  | s :: s' :: rest, .mk h v dh tt ch, n', hcol => by
    cases hl : lookupChild ch s with
    | none => simp [collapse, hl] at hcol
    | some c =>
      cases hc : collapse c (s' :: rest) with
      | none => simp [collapse, hl, hc] at hcol
      | some c' =>
        simp only [collapse, hl, hc, Option.some.injEq] at hcol
        subst hcol
        simpa [find, Node.children, lookup_setChild_self] using
          find_collapse_none (s' :: rest) c c' hc

theorem dataView_find_collapse :
    ∀ (p : List String) (n n' : Node), collapse n p = some n' →
      ∀ q : List String, ¬ p <+: q →
        dataView (find n' q) = dataView (find n q)
  | [], _, _, hcol => by simp [collapse] at hcol
  | [s], .mk h v dh tt ch, n', hcol => by
    cases hl : lookupChild ch s with
    | none => simp [collapse, hl] at hcol
    | some c =>
      simp only [collapse, hl, Option.some.injEq] at hcol
      subst hcol
      intro q hq
      cases q with
      | nil => rfl
      | cons t qr =>
        by_cases hts : t = s
        · exact absurd (hts ▸ ⟨qr, rfl⟩) hq
        · simp [find, Node.children, lookup_eraseChild_ne ch s t hts]
  | s :: s' :: rest, .mk h v dh tt ch, n', hcol => by
    cases hl : lookupChild ch s with
    | none => simp [collapse, hl] at hcol
    | some c =>
      cases hc : collapse c (s' :: rest) with
      | none => simp [collapse, hl, hc] at hcol
      | some c' =>
        simp only [collapse, hl, hc, Option.some.injEq] at hcol
        subst hcol
        intro q hq
        cases q with
        | nil => rfl
        | cons t qr =>
          by_cases hts : t = s
          · subst hts
            have hq' : ¬ s' :: rest <+: qr := by
              intro hpre
              exact hq (List.cons_prefix_cons.mpr ⟨rfl, hpre⟩)
            simpa [find, Node.children, lookup_setChild_self, hl] using
              dataView_find_collapse (s' :: rest) c c' hc qr hq'
          · simp [find, Node.children, lookup_setChild_ne ch s t c' hts]

/-- Helper: `get` on a path whose node is missing reports
`exists = false` (and bumps the miss counters). -/
theorem get_miss_of_find_none (c : DataCache) (q : List String)
    (hq : q ≠ []) (hf : find c.root q = none) :
    ∃ c₂, c.get q = .ok (⟨false, none, none, none⟩, c₂) := by
  rw [DataCache.get, if_neg hq]
  simp only [hf]
  exact ⟨_, rfl⟩

/-! ### Claims about the core -/

/-- C1: after a successful `invalidate p`, `get` on `p` and on every
descendant path of `p` reports `exists = false`; every path not routed
through `p` keeps its stored value (and hash and timestamp); the
invalidation is counted once, in `invalidations` and under the key of
`p` alone in `paths_invalidated` — descendants are not individually
counted. -/
theorem invalidate_cascades (c : DataCache) (p : List String)
    (c' : DataCache) (h : c.invalidate p = .ok (true, c')) :
    (∀ q, p <+: q →
      ∃ c₂, c'.get q = .ok (⟨false, none, none, none⟩, c₂)) ∧
    (∀ q, ¬ p <+: q → stored c' q = stored c q) ∧
    c'.stats.invalidations = c.stats.invalidations + 1 ∧
    c'.stats.paths_invalidated
      = incrCount c.stats.paths_invalidated (pathKey p) := by
  by_cases hp : p = []
  · rw [DataCache.invalidate, if_pos hp] at h
    exact absurd h (by simp)
  · rw [DataCache.invalidate, if_neg hp] at h
    cases hcol : collapse c.root p with
    | none =>
      rw [hcol] at h
      simp at h
    | some r =>
      rw [hcol] at h
      simp only [Except.ok.injEq, Prod.mk.injEq, true_and] at h
      subst h
      refine ⟨?_, ?_, rfl, rfl⟩
      · intro q hpre
        obtain ⟨e, rfl⟩ := hpre
        have hq : p ++ e ≠ [] := by
          intro hh
          exact hp (List.append_eq_nil.mp hh).1
        apply get_miss_of_find_none _ _ hq
        show find r (p ++ e) = none
        rw [find_append, find_collapse_none p c.root r hcol]
        rfl
      · intro q hq
        have hdv := dataView_find_collapse p c.root r hcol q hq
        show (match dataView (find r q) with
          | some (true, v, dh, t) => some (v, dh, t)
          | _ => none) = stored c q
        rw [hdv]
        rfl

/-- Witness for C1: in the §8 cascade scenario, after invalidating
`["a","b"]` the descendant `["a","b","c"]` reports `exists = false`. -/
theorem invalidate_cascades_witness :
    ∃ c₂, exampleInvalidated.get ["a", "b", "c"]
      = .ok (⟨false, none, none, none⟩, c₂) :=
  (invalidate_cascades exampleCache ["a", "b"] exampleInvalidated rfl).1
    ["a", "b", "c"] ⟨["c"], rfl⟩

/-- C2: for every non-empty path `p` and value `v`, `add p v` succeeds
and an immediately following `get p` reports `exists = true` with
exactly the value `v`, the deterministic re-hash of `v`, and the write
timestamp; this holds for an arbitrary prior state, so an `add` at an
already-populated node overwrites the prior value (update semantics). -/
theorem add_then_get (c : DataCache) (p : List String) (v : Nat)
    (hp : p ≠ []) :
    ∃ c₁, c.add p v = .ok c₁ ∧
      ∃ c₂, c₁.get p
        = .ok (⟨true, some v, some (hashValue v), some c.now⟩, c₂) := by
  refine ⟨_, by rw [DataCache.add, if_neg hp], ?_⟩
  obtain ⟨ch, hch⟩ := find_addAt p c.root v c.now
  rw [DataCache.get, if_neg hp]
  simp only [hch, Node.has_data, Node.value, Node.data_hash, Node.timestamp]
  exact ⟨_, rfl⟩

/-- Witness for C2: add-then-get evaluated at `["users","1"]`, `5` from
the empty cache. -/
theorem add_then_get_witness :
    ∃ c₁, emptyCache.add ["users", "1"] 5 = .ok c₁ ∧
      ∃ c₂, c₁.get ["users", "1"]
        = .ok (⟨true, some 5, some (hashValue 5), some emptyCache.now⟩,
            c₂) :=
  add_then_get emptyCache ["users", "1"] 5 (by decide)

/-- C3: `invalidate` on a non-empty path at which no node exists returns
`false` and leaves the whole cache state — tree, every global counter
and every per-path mapping — unchanged; and after any `invalidate p`, an
immediately repeated `invalidate p` returns `false` and leaves the state
exactly as after the first call. -/
theorem invalidate_absent_noop_idempotent (c : DataCache)
    (p : List String) (hp : p ≠ []) :
    (find c.root p = none → c.invalidate p = .ok (false, c)) ∧
    (∀ b c₁, c.invalidate p = .ok (b, c₁) →
      c₁.invalidate p = .ok (false, c₁)) := by
  constructor
  · intro hf
    rw [DataCache.invalidate, if_neg hp,
      collapse_none_of_find_none p c.root hp hf]
  · intro b c₁ h
    rw [DataCache.invalidate, if_neg hp] at h
    cases hcol : collapse c.root p with
    | none =>
      rw [hcol] at h
      simp only [Except.ok.injEq, Prod.mk.injEq] at h
      obtain ⟨rfl, rfl⟩ := h
      rw [DataCache.invalidate, if_neg hp, hcol]
    | some r =>
      rw [hcol] at h
      simp only [Except.ok.injEq, Prod.mk.injEq] at h
      obtain ⟨rfl, rfl⟩ := h
      rw [DataCache.invalidate, if_neg hp]
      have hf : find ({ c with
          root := r,
          stats := { c.stats with
            invalidations := c.stats.invalidations + 1,
            paths_invalidated :=
              incrCount c.stats.paths_invalidated (pathKey p) } }
            : DataCache).root p = none :=
        find_collapse_none p c.root r hcol
      rw [collapse_none_of_find_none p _ hp hf]

/-- Witness for C3: invalidating the absent path `["z"]` in the example
cache returns `false` and changes nothing. -/
theorem invalidate_absent_noop_witness :
    exampleCache.invalidate ["z"] = .ok (false, exampleCache) :=
  (invalidate_absent_noop_idempotent exampleCache ["z"] (by decide)).1 rfl

/-- C4: `get`, `add` and `invalidate` invoked with an empty path each
fail synchronously with `InvalidPath`; the error result carries no new
cache state, so the tree, the stored values and every statistics counter
are untouched.  In the presentation layer, `executeOperation` raises
`"Path cannot be empty for this operation."` for a path input that
parses to the empty path, before any API request is issued. -/
theorem empty_path_invalid (c : DataCache) (v : Nat) (s : String)
    (hs : parsePath s = []) :
    c.get [] = .error .invalidPath ∧
    c.add [] v = .error .invalidPath ∧
    c.invalidate [] = .error .invalidPath ∧
    executeOperationPathGuard s
      = some "Path cannot be empty for this operation." := by
  refine ⟨rfl, rfl, rfl, ?_⟩
  rw [executeOperationPathGuard, hs]
  rfl

/-- Witness for C4: the empty-path failures evaluated at the empty cache
and the empty path input. -/
theorem empty_path_invalid_witness :
    emptyCache.get [] = .error .invalidPath ∧
    emptyCache.add [] 0 = .error .invalidPath ∧
    emptyCache.invalidate [] = .error .invalidPath ∧
    executeOperationPathGuard ""
      = some "Path cannot be empty for this operation." :=
  empty_path_invalid emptyCache 0 "" rfl

end DepCacheViz
